import Mathlib

/-!
Verification of the github-onboarding-agent backend.

This file gives a shallow embedding of the backend's pure logic and of the
effects of its git-backed snapshot manager, and proves or refutes the frozen
claims about it.

Embedding conventions:
* Python floats are modelled as exact rationals (`ℚ`); every constant involved
  is a short decimal and no claim hinges on rounding.
* Python dictionaries with optional keys are modelled as structures of
  `Option` fields; `d.get(k)` is `Option.getD`.
* Python exceptions are modelled with `Except`; a function that cannot raise is
  total.
* Strings are handled through small character-list based helpers (`pyStrip`,
  `pyJoin`, `pySplitlines`) that spell out the Python semantics of
  `str.strip`, `str.join` and `str.splitlines` (for newline-separated text).
-/

namespace OnboardingAgent

/-- Python `str.strip()`: drop leading and trailing whitespace characters. -/
def pyStrip (s : String) : String :=
  ⟨((s.data.dropWhile Char.isWhitespace).reverse.dropWhile Char.isWhitespace).reverse⟩

/-- Python `str.lower()` (character-wise lowering). -/
def pyLower (s : String) : String := ⟨s.data.map Char.toLower⟩

/-- Whether `p` is a prefix of `l`, character-list version. -/
def isPrefixList : List Char → List Char → Bool
  | [], _ => true
  | _ :: _, [] => false
  | a :: as, b :: bs => a = b && isPrefixList as bs

/-- Python `s.startswith(p)`. -/
def pyStartswith (s p : String) : Bool := isPrefixList p.data s.data

/-- Python `s.endswith(p)`. -/
def pyEndswith (s p : String) : Bool := isPrefixList p.data.reverse s.data.reverse

/-- Whether `pat` occurs as a contiguous run inside `l`. -/
def containsList (pat : List Char) : List Char → Bool
  | [] => decide (pat = [])
  | c :: rest => isPrefixList pat (c :: rest) || containsList pat rest

/-- Python `pat in s`. -/
def pyIn (pat s : String) : Bool := containsList pat.data s.data

/-- Python `sep.join(l)`. -/
def pyJoin (sep : String) : List String → String
  | [] => ""
  | [x] => x
  | x :: y :: t => x ++ sep ++ pyJoin sep (y :: t)

/-- Split a character list at every newline character. -/
def splitOnNl : List Char → List (List Char)
  | [] => [[]]
  | c :: rest =>
    if c = '\n' then [] :: splitOnNl rest
    else
      match splitOnNl rest with
      | [] => [[c]]
      | g :: gs => (c :: g) :: gs

/-- Python `str.splitlines()` for newline-separated text: empty string gives
no lines, and a trailing newline does not create a final empty line. -/
def pySplitlines (s : String) : List String :=
  if s.data = [] then []
  else
    let gs := (splitOnNl s.data).map String.mk
    if s.data.getLast? = some '\n' then gs.dropLast else gs

/-! ## Chunker (src/backend/app/services/chunker.py, `make_chunks`)

The source dataclass `Chunk` carries `text` and a `meta` dict with keys
`path`, `chunk_index`, `start_line`, `end_line`; here the dict is flattened
into fields. -/

structure Chunk where
  text : String
  path : String
  chunk_index : Nat
  start_line : Nat
  end_line : Nat
deriving DecidableEq, Repr

/-- The text of the line window `[start, e)`, joined with newlines and
stripped, as in `"\n".join(lines[start:end]).strip()`. -/
def windowText (lines : List String) (start e : Nat) : String :=
  pyStrip (pyJoin "\n" ((lines.drop start).take (e - start)))

/-- The `for start in range(0, len(lines), step)` loop of `make_chunks`:
a blank window is skipped (`continue`), a window reaching end of file stops
the loop after being emitted (`break`), and `chunk_index` counts emitted
chunks only.  The loop advances `start` by `step ≥ 1` each round, so a fuel
of `lines.length` always suffices; fuel is used only to make the recursion
structural. -/
def makeChunksLoop (path : String) (lines : List String) (L V : Nat) :
    Nat → Nat → Nat → List Chunk
  | 0, _, _ => []
  | fuel + 1, start, idx =>
    let step := max 1 (L - V)
    if start < lines.length then
      let e := min lines.length (start + L)
      let t := windowText lines start e
      if t = "" then makeChunksLoop path lines L V fuel (start + step) idx
      else if lines.length ≤ e then [⟨t, path, idx, start + 1, e⟩]
      else ⟨t, path, idx, start + 1, e⟩ :: makeChunksLoop path lines L V fuel (start + step) (idx + 1)
    else []

/-- `make_chunks(path, text, chunk_lines, overlap)`; the source defaults are
`chunk_lines = 60`, `overlap = 10`. -/
def make_chunks (path text : String) (chunk_lines overlap : Nat) : List Chunk :=
  let lines := pySplitlines text
  makeChunksLoop path lines chunk_lines overlap lines.length 0 0

/-! ## Retrieval (src/backend/app/routers/chat.py)

A Pinecone match is modelled as a `Hit`: a score together with a metadata
dict whose value may be Python `None` (`Option.none`) and whose keys may each
be absent individually. -/

structure Md where
  path : Option String
  chunk_index : Option Nat
  start_line : Option Int
  end_line : Option Int
  is_readme : Option Bool
  is_doc : Option Bool
  text : Option String
deriving DecidableEq, Repr

/-- The empty dict `{}` used by `h.get("metadata") or {}`. -/
def emptyMd : Md := ⟨none, none, none, none, none, none, none⟩

structure Hit where
  score : Option ℚ
  metadata : Option Md
deriving DecidableEq, Repr

/-- `_score_boost` of chat.py: the raw similarity score plus additive
path-derived boosts; missing metadata degrades through `.get` defaults.
The source's float constants 0.20, 0.10, 0.05, 0.25, 0.12 are the exact
rationals written here as fractions. -/
def score_boost (h : Hit) : ℚ :=
  let md := h.metadata.getD emptyMd
  let path := pyLower (md.path.getD "")
  let s := h.score.getD 0
  let s := if pyStartswith path "src/" then s + 20/100 else s
  let s := if pyIn "/__init__.py" path ∨ pyEndswith path "__init__.py" then s + 10/100 else s
  let s := if pyStartswith path "flask/" ∨ pyStartswith path "app/" ∨ pyStartswith path "backend/" then s + 5/100 else s
  let s := if md.is_readme.getD false ∨ pyEndswith path "readme.md" ∨ pyEndswith path "readme.rst" then s + 25/100 else s
  let s := if md.is_doc.getD false ∨ pyStartswith path "docs/" ∨ pyStartswith path "doc/" then s + 12/100 else s
  let s := if path = "pyproject.toml" ∨ path = "setup.cfg" ∨ path = "setup.py" then s + 10/100 else s
  let s := if pyStartswith path ".devcontainer/" ∨ pyStartswith path ".github/" ∨
      pyStartswith path ".circleci/" ∨ pyStartswith path ".gitlab/" ∨
      pyStartswith path "devcontainer/" then s - 10/100 else s
  let s := if pyStartswith path "tests/" ∨ pyStartswith path ".repos/" then s - 5/100 else s
  s

/-- The dedup key `(md.get("path"), md.get("chunk_index"))` of `retriever_fn`. -/
def hitKey (h : Hit) : Option String × Option Nat :=
  let md := h.metadata.getD emptyMd
  (md.path, md.chunk_index)

/-- The dedup loop of `retriever_fn` with its `seen` set. -/
def dedupAux (seen : List (Option String × Option Nat)) : List Hit → List Hit
  | [] => []
  | h :: rest =>
    if hitKey h ∈ seen then dedupAux seen rest
    else h :: dedupAux (hitKey h :: seen) rest

/-- De-duplication by `(path, chunk_index)`, keeping the first-seen entry. -/
def dedup (l : List Hit) : List Hit := dedupAux [] l

/-- The sort order of `deduped.sort(key=_score_boost, reverse=True)`:
`a` may come before `b` iff `a`'s composite score is at least `b`'s. -/
def boostGe (a b : Hit) : Prop := score_boost b ≤ score_boost a

instance : DecidableRel boostGe := fun a b =>
  inferInstanceAs (Decidable (score_boost b ≤ score_boost a))

instance : IsTotal Hit boostGe := ⟨fun a b => le_total (score_boost b) (score_boost a)⟩

instance : IsTrans Hit boostGe := ⟨fun _ _ _ h1 h2 => le_trans h2 h1⟩

/-- The dedup + rerank + truncate tail of `retriever_fn`, applied to the
pooled candidates of all expanded queries.  Python `list.sort` is a stable
sort, so its output on the total preorder `boostGe` is exactly the stable
`insertionSort`. -/
def rerank (l : List Hit) : List Hit :=
  ((dedup l).insertionSort boostGe).take 18

/-! ## Answering (chat.py, `make_prompt` and `answer_fn`) -/

def promptBlock (i : Nat) (h : Hit) : String :=
  let md := h.metadata.getD emptyMd
  let path := md.path.getD "(unknown)"
  let start := md.start_line.getD 1
  let e := md.end_line.getD 1
  let text := (pyStrip (md.text.getD "")).take 1400
  "[S" ++ toString i ++ "] " ++ path ++ " (lines " ++ toString start ++ "-" ++
    toString e ++ ")\n" ++ text

/-- `make_prompt` of chat.py. -/
def make_prompt (question : String) (hits : List Hit) : String :=
  let blocks := (List.enumFrom 1 (hits.take 14)).map fun p => promptBlock p.1 p.2
  let context := if blocks = [] then "(no relevant context found)" else pyJoin "\n\n" blocks
  "You are a GitHub repo onboarding assistant.\n\nGoal: Answer the user question using the repository contents, even if there is no README.\n\nUse ONLY the sources below. Do not ask the user to read the README; if README content is present in sources, summarize it.\n\nUser question: " ++
    question ++ "\n\nSources:\n" ++ context ++
    "\n\nOutput format (use these headings):\n1) What this repo is\n2) What it likely does (inferred from code/config if no explicit description)\n3) How to run it locally (only if present in sources)\n4) Development workflow (tests/lint/format/CI if present)\n5) Key directories / entry points (prioritize src/ and package code, not tooling folders)\n6) Suggested first tasks for a new contributor (3 bullets)\n\nRules:\n- If you infer something, say “Likely:” and cite the source(s) that support the inference.\n- Cite sources like [S1], [S2] at the end of each statement/bullet.\n- Prefer core code paths (src/, package modules) over tooling (devcontainer, CI) unless asked.\n"

/-- Python runtime errors that the answer stage can raise. -/
inductive PyErr where
  | attributeError
  | keyError
deriving DecidableEq, Repr

/-- The canned zero-hit response of `answer_fn`. -/
def notFoundMsg : String :=
  "I couldn’t find anything relevant in the indexed repo. Try asking with a filename, module name, or keyword."

/-- The listing comprehension of the no-LLM-key branch:
`f"- {h['metadata'].get('path','(unknown)')}"` for each hit.  `h['metadata']`
is the raw stored value; when it is Python `None`, `.get` raises
`AttributeError`. -/
def pathLines : List Hit → Except PyErr (List String)
  | [] => .ok []
  | h :: t =>
    match h.metadata with
    | none => .error .attributeError
    | some md =>
      match pathLines t with
      | .ok ls => .ok (("- " ++ md.path.getD "(unknown)") :: ls)
      | .error e => .error e

/-- `answer_fn` of chat.py.  `openaiKey` is `settings.openai_api_key`;
`generate` is the external LLM collaborator used when a key is present. -/
def answer_fn (openaiKey : Option String) (generate : String → String)
    (question : String) (hits : List Hit) : Except PyErr String :=
  if hits = [] then .ok notFoundMsg
  else
    match openaiKey with
    | none =>
      match pathLines (hits.take 8) with
      | .ok ls =>
        .ok ("I can retrieve the most relevant files, but full synthesis requires an LLM key.\n\nTop relevant files:\n" ++
          pyJoin "\n" ls ++ "\n\nSet OPENAI_API_KEY to enable a full onboarding answer.")
      | .error e => .error e
    | some _ => .ok (generate (make_prompt question hits))

/-! ## URL normalization (src/backend/app/services/github_loader.py) -/

/-- Split a character list at every occurrence of the character `sep`. -/
def splitOnChar (sep : Char) : List Char → List (List Char)
  | [] => [[]]
  | c :: rest =>
    if c = sep then [] :: splitOnChar sep rest
    else
      match splitOnChar sep rest with
      | [] => [[c]]
      | g :: gs => (c :: g) :: gs

/-- Split a character list at the first colon, returning the parts before
and after it. -/
def splitFirstColon : List Char → Option (List Char × List Char)
  | [] => none
  | c :: rest =>
    if c = ':' then some ([], rest)
    else
      match splitFirstColon rest with
      | none => none
      | some (a, b) => some (c :: a, b)

/-- Whether a character list is a well-formed URL scheme
(`[a-zA-Z][a-zA-Z0-9+.-]*`). -/
def isScheme (cs : List Char) : Bool :=
  match cs with
  | [] => false
  | c :: rest => c.isAlpha && rest.all (fun d => d.isAlpha ∨ d.isDigit ∨ d = '+' ∨ d = '-' ∨ d = '.')

/-- `urllib.parse.urlparse`, restricted to the `netloc` and `path` fields
consumed by `normalize_github_repo_url`: a scheme is split off before the
first colon, and a netloc is present only after a leading `//` (so
`github.com/a/b` has empty netloc and everything in the path). -/
def urlNetlocPath (url : String) : String × String :=
  let cs := url.data
  let afterScheme :=
    match splitFirstColon cs with
    | some (scheme, rest) => if isScheme scheme then rest else cs
    | none => cs
  match afterScheme with
  | '/' :: '/' :: rest =>
    let netloc := rest.takeWhile (fun c => c ≠ '/')
    (⟨netloc⟩, ⟨rest.drop netloc.length⟩)
  | _ => ("", ⟨afterScheme⟩)

/-- The nonempty segments of a URL path:
`[p for p in u.path.split("/") if p]`. -/
def pathParts (path : String) : List String :=
  ((splitOnChar '/' path.data).map String.mk).filter (fun p => p ≠ "")

/-- Remove every (non-overlapping, left-to-right) occurrence of `pat`,
Python `s.replace(pat, "")`.  Each round consumes at least one character,
so a fuel equal to the list length always suffices; fuel only makes the
recursion structural. -/
def removeAllFuel (pat : List Char) : Nat → List Char → List Char
  | _, [] => []
  | 0, l => l
  | fuel + 1, c :: rest =>
    if pat ≠ [] ∧ isPrefixList pat (c :: rest) = true then
      removeAllFuel pat fuel (rest.drop (pat.length - 1))
    else c :: removeAllFuel pat fuel rest

/-- Python `s.replace(pat, "")` on character lists. -/
def removeAll (pat l : List Char) : List Char := removeAllFuel pat l.length l

deriving instance DecidableEq for Except

/-- Errors of the loader layer.  `valueError` carries the Python message.
`noBranchFound` and `snapshotBusy` are the typed errors the specification
names; the code never constructs them (see the C2 and C4 theorems). -/
inductive LoaderErr where
  | valueError (msg : String)
  | gitCommandError
  | noBranchFound
  | snapshotBusy
deriving DecidableEq, Repr

/-- The checks `normalize_github_repo_url` performs on the nonempty path
segments: at least `OWNER/REPO`, strip `.git` from the repo segment, reject
a third segment equal to `tree` or `blob`, and rebuild the canonical URL. -/
def normalizeParts : List String → Except LoaderErr String
  | owner :: repo0 :: rest =>
    let repo : String := ⟨removeAll ".git".data repo0.data⟩
    match rest with
    | third :: _ =>
      if third = "tree" ∨ third = "blob" then
        .error (.valueError "You pasted a folder/file URL. Use the repo root URL like: https://github.com/OWNER/REPO")
      else .ok ("https://github.com/" ++ owner ++ "/" ++ repo ++ ".git")
    | [] => .ok ("https://github.com/" ++ owner ++ "/" ++ repo ++ ".git")
  | _ => .error (.valueError "Repo URL must look like https://github.com/OWNER/REPO")

/-- `normalize_github_repo_url` of github_loader.py. -/
def normalize_github_repo_url (url : String) : Except LoaderErr String :=
  let url := pyStrip url
  if url = "" then .error (.valueError "Empty repo_url")
  else
    let np := urlNetlocPath url
    if pyLower np.1 = "github.com" ∨ pyLower np.1 = "www.github.com" then
      normalizeParts (pathParts np.2)
    else .error (.valueError "Only github.com URLs are supported in this MVP")

/-- The URL-validation step of the `/ingest` route (ingest.py lines 66–70):
a `ValueError` from `normalize_github_repo_url` is re-raised as HTTP 400. -/
def ingestValidateUrl (u : String) : Except Nat String :=
  match normalize_github_repo_url u with
  | .ok v => .ok v
  | .error _ => .error 400

/-! ## Snapshot manager (github_loader.py, `clone_or_update`)

Commits are numbers; a remote is a finite map from branch names to tips plus
the advertised HEAD branch and reachability; a local snapshot records its
local branches, the checked-out branch (working tree), the
`refs/remotes/origin/HEAD` symbolic ref created by `git clone`, and the
state of `.git/index.lock`.  Git semantics embedded: `git checkout b`
succeeds when a local branch `b` exists; `git checkout -b b origin/b` and
`git reset --hard origin/b` succeed exactly when branch `b` exists on the
remote (after a successful `fetch --prune` the remote-tracking refs mirror
the remote); `os.remove` on the lock file succeeds no matter who created
it.  The remote-URL repoint block (lines 95–105) only rewrites git config
and is elided; a failed `git clone` removes the directory it created, so a
clone failure leaves the filesystem unchanged. -/

structure Remote where
  branches : List (String × Nat)
  headBranch : Option String
  reachable : Bool
deriving DecidableEq, Repr

structure Snapshot where
  heads : List (String × Nat)
  current : Option (String × Nat)
  originHead : Option String
  indexLock : Bool
  lockLive : Bool
deriving DecidableEq, Repr

/-- The on-disk state for one `repo_id`: the snapshot directory, if any, and
the `repo_id`-scoped lock file the specification requires (`appLock`).
`lockLive` in `Snapshot` records whether a live process holds
`.git/index.lock`. -/
structure RepoFS where
  snapshot : Option Snapshot
  appLock : Bool
deriving DecidableEq, Repr

/-- Association-list lookup of a branch name. -/
def lookupBranch : List (String × Nat) → String → Option Nat
  | [], _ => none
  | p :: rest, b => if p.1 = b then some p.2 else lookupBranch rest b

/-- Move an existing branch to a new commit. -/
def setBranch (l : List (String × Nat)) (b : String) (c : Nat) : List (String × Nat) :=
  l.map fun p => if p.1 = b then (b, c) else p

/-- `_remove_stale_index_lock`: delete `.git/index.lock` if present, errors
ignored; there is no check of whether its holder is alive. -/
def remove_stale_index_lock (s : Snapshot) : Snapshot := {s with indexLock := false}

/-- `_default_branch`: the branch `origin/HEAD` points at when that symbolic
ref exists, else the first of `main`, `master` that resolves as a
remote-tracking ref, else the literal `"main"`. -/
def default_branch (r : Remote) (s : Snapshot) : String :=
  match s.originHead with
  | some b => b
  | none =>
    if (lookupBranch r.branches "main").isSome then "main"
    else if (lookupBranch r.branches "master").isSome then "master"
    else "main"

/-- One try-block of the checkout phase for branch `b`: `git checkout b`
(when a local branch exists) or `git checkout -b b origin/b`, followed by
`git reset --hard origin/b`.  Returns whether the block succeeded and the
resulting state; a checkout that succeeded before a failing reset leaves
the working tree switched. -/
def attemptBranch (r : Remote) (s : Snapshot) (b : String) : Bool × Snapshot :=
  match lookupBranch s.heads b with
  | some c =>
    let s1 := {s with current := some (b, c)}
    match lookupBranch r.branches b with
    | some rc => (true, {s1 with current := some (b, rc), heads := setBranch s1.heads b rc})
    | none => (false, s1)
  | none =>
    match lookupBranch r.branches b with
    | some rc => (true, {s with heads := s.heads ++ [(b, rc)], current := some (b, rc)})
    | none => (false, s)

/-- The `for fallback in ("main", "master")` loop, threading state. -/
def fallbackLoop (r : Remote) : List String → Snapshot → (Except LoaderErr String) × Snapshot
  | [], s => (.error .gitCommandError, s)
  | fb :: rest, s =>
    match attemptBranch r s fb with
    | (true, s1) => (.ok fb, s1)
    | (false, s1) => fallbackLoop r rest s1

/-- The checkout/reset phase for `target_branch`, with the `main`/`master`
fallback chain and the re-raise when everything fails. -/
def branchPhase (r : Remote) (s : Snapshot) (target : String) :
    (Except LoaderErr String) × Snapshot :=
  match attemptBranch r s target with
  | (true, s1) => (.ok target, s1)
  | (false, s1) => fallbackLoop r (["main", "master"].filter (fun fb => fb ≠ target)) s1

/-- The snapshot a successful `git clone` leaves behind: the remote's HEAD
branch checked out as the only local branch, `origin/HEAD` set, no lock. -/
def cloneSnapshot (r : Remote) : Snapshot :=
  match r.headBranch with
  | some d =>
    match lookupBranch r.branches d with
    | some c => ⟨[(d, c)], some (d, c), some d, false, false⟩
    | none => ⟨[], none, none, false, false⟩
  | none =>
    match r.branches with
    | [] => ⟨[], none, none, false, false⟩
    | (b, c) :: _ => ⟨[(b, c)], some (b, c), some b, false, false⟩

/-- `(branch or "").strip() or _default_branch(repo)`. -/
def targetBranch (r : Remote) (s : Snapshot) (branch : Option String) : String :=
  let b := pyStrip (branch.getD "")
  if b = "" then default_branch r s else b

/-- Lines 107–148 of github_loader.py: remove a stale index lock, fetch
(with the lock removed again on fetch failure), select the target branch,
remove the lock again, run the checkout/reset phase, and return the short
id of the resulting HEAD commit. -/
def updatePhase (r : Remote) (branch : Option String) (s : Snapshot) :
    (Except LoaderErr Nat) × Snapshot :=
  let s := remove_stale_index_lock s
  if r.reachable then
    let tgt := targetBranch r s branch
    let s := remove_stale_index_lock s
    match branchPhase r s tgt with
    | (.ok _, s1) => (.ok (s1.current.getD ("", 0)).2, s1)
    | (.error e, s1) => (.error e, s1)
  else (.error .gitCommandError, s)

/-- `clone_or_update` on the state owned by one `repo_id`: clone when no
directory exists, then the common fetch/branch phase. -/
def cloneOrUpdateCore (r : Remote) (branch : Option String) :
    Option Snapshot → (Except LoaderErr Nat) × Option Snapshot
  | none =>
    if r.reachable then
      let p := updatePhase r branch (cloneSnapshot r)
      (p.1, some p.2)
    else (.error .gitCommandError, none)
  | some s =>
    let p := updatePhase r branch s
    (p.1, some p.2)

/-- `clone_or_update` including the untouched `repo_id`-scoped lock file. -/
def clone_or_update (r : Remote) (branch : Option String) (fs : RepoFS) :
    (Except LoaderErr Nat) × RepoFS :=
  let p := cloneOrUpdateCore r branch fs.snapshot
  (p.1, ⟨p.2, fs.appLock⟩)

/-! ## Definitions modelled from the spec, for refinement comparison -/

/-- Modelled from the spec: the branch-resolution order of §4.1 — the
explicit requested branch if it exists on the remote; else the remote's
advertised default branch; else `main`; else `master`; else the
lexicographically first remaining remote branch; `NoBranchFound` when the
remote has zero branches.  Used only to compare the claimed order against
the code's behaviour. -/
def specResolveBranch (r : Remote) (branch : Option String) : Except LoaderErr String :=
  if r.branches = [] then .error .noBranchFound
  else
    let fromDefaults : Except LoaderErr String :=
      match r.headBranch with
      | some d => .ok d
      | none =>
        if (lookupBranch r.branches "main").isSome then .ok "main"
        else if (lookupBranch r.branches "master").isSome then .ok "master"
        else
          match r.branches.map Prod.fst with
          | [] => .error .noBranchFound
          | b :: bs => .ok (bs.foldl (fun a c => if c < a then c else a) b)
    match branch with
    | some b => if (lookupBranch r.branches b).isSome then .ok b else fromDefaults
    | none => fromDefaults

/-- Modelled from the spec: the dedup key of §4.4 — `(path, chunk_index)`,
or `(path, start_line, end_line)` where `chunk_index` is unavailable. -/
def specHitKey (h : Hit) : (Option String × Nat) ⊕ (Option String × Option Int × Option Int) :=
  let md := h.metadata.getD emptyMd
  match md.chunk_index with
  | some ci => .inl (md.path, ci)
  | none => .inr (md.path, md.start_line, md.end_line)

/-- First-seen deduplication by an arbitrary key. -/
def dedupBy {κ : Type} [DecidableEq κ] (key : Hit → κ) (seen : List κ) : List Hit → List Hit
  | [] => []
  | h :: rest =>
    if key h ∈ seen then dedupBy key seen rest
    else h :: dedupBy key (key h :: seen) rest

/-- Modelled from the spec: deduplication under `specHitKey`. -/
def specDedup (l : List Hit) : List Hit := dedupBy specHitKey [] l

/-! ## Concrete fixtures used by the counterexamples and witnesses -/

/-- A README hit with similarity score 0.10, carrying the metadata the
ingestion layer stores for a README chunk. -/
def readmeHit : Hit :=
  ⟨some (10/100), some ⟨some "README.md", some 0, some 1, some 40, some true, some true, none⟩⟩

/-- A test-directory hit with similarity score 0.95. -/
def testHit : Hit :=
  ⟨some (95/100), some ⟨some "tests/test_app.py", some 0, some 1, some 40, some false, some false, none⟩⟩

/-- A hit whose metadata dict is Python `None`. -/
def missingMdHit : Hit := ⟨some (1/2), none⟩

/-- A test-directory hit with the same similarity score as `missingMdHit`. -/
def testsPathHit : Hit :=
  ⟨some (1/2), some ⟨some "tests/x.py", some 0, none, none, none, none, none⟩⟩

/-- A hit with full metadata, used where well-formed hits are needed. -/
def plainHit : Hit :=
  ⟨none, some ⟨some "src/app.py", some 2, some 5, some 64, some false, some false, none⟩⟩

/-- Two hits sharing a path, both without `chunk_index`, with different
line ranges. -/
def hitNoIdxA : Hit := ⟨none, some ⟨some "p", none, some 1, some 10, none, none, none⟩⟩

/-- See `hitNoIdxA`; same path and missing `chunk_index`, different lines. -/
def hitNoIdxB : Hit := ⟨none, some ⟨some "p", none, some 11, some 20, none, none, none⟩⟩

/-- A 111-line text: 100 lines `a`, ten empty lines, one line `" "`.  Its
final 60-line window (lines 101–111) strips to empty and is dropped, and
line 111 is covered by no emitted chunk. -/
def blankTailText : String :=
  pyJoin "\n" (List.replicate 100 "a" ++ List.replicate 10 "" ++ [" "])

/-- A remote exposing only `develop`, reachable, with no advertised HEAD. -/
def remoteDevelopOnly : Remote := ⟨[("develop", 4)], none, true⟩

/-- A snapshot of `remoteDevelopOnly` at an older commit, whose
`origin/HEAD` symbolic ref was never created. -/
def snapDevelop : Snapshot := ⟨[("develop", 3)], some ("develop", 3), none, false, false⟩

/-- A remote exposing only `master` (no `main`), with `master` advertised. -/
def remoteMasterOnly : Remote := ⟨[("master", 7)], some "master", true⟩

/-- A reachable remote advertising `develop` at commit 4, where the branch
`feature` has been deleted. -/
def remoteFeatureGone : Remote := ⟨[("develop", 4)], some "develop", true⟩

/-- A snapshot with local branches `feature` (at 5) and `develop` (at 3),
currently checked out on `develop`. -/
def snapWithFeature : Snapshot :=
  ⟨[("feature", 5), ("develop", 3)], some ("develop", 3), some "develop", false, false⟩

/-- A healthy remote with `main` at commit 2. -/
def remoteMain2 : Remote := ⟨[("main", 2)], some "main", true⟩

/-- A snapshot of `remoteMain2` at commit 1, no lock. -/
def snapMain1 : Snapshot := ⟨[("main", 1)], some ("main", 1), some "main", false, false⟩

/-- A healthy remote with `main` at commit 5. -/
def remoteMain5 : Remote := ⟨[("main", 5)], some "main", true⟩

/-- A snapshot of `remoteMain5` at commit 4 whose `.git/index.lock` exists
and is held by a live process. -/
def snapLockedLive : Snapshot := ⟨[("main", 4)], some ("main", 4), some "main", true, true⟩

/-- An unreachable remote. -/
def remoteDown : Remote := ⟨[("main", 9)], some "main", false⟩

/-! ## Helper lemmas: deduplication -/

theorem dedupAux_sublist (seen : List (Option String × Option Nat)) (l : List Hit) :
    (dedupAux seen l).Sublist l := by
  induction l generalizing seen with
  | nil => simp [dedupAux]
  | cons h t ih =>
    simp only [dedupAux]
    split
    · exact (ih seen).cons h
    · exact (ih _).cons₂ h

theorem dedupAux_not_seen (seen : List (Option String × Option Nat)) (l : List Hit)
    (h' : Hit) (hmem : h' ∈ dedupAux seen l) : hitKey h' ∉ seen := by
  induction l generalizing seen with
  | nil => simp [dedupAux] at hmem
  | cons h t ih =>
    simp only [dedupAux] at hmem
    split at hmem
    · exact ih seen hmem
    · rcases List.mem_cons.mp hmem with rfl | hmem2
      · assumption
      · have := ih _ hmem2
        intro hc
        exact this (List.mem_cons_of_mem _ hc)

theorem dedupAux_pairwise (seen : List (Option String × Option Nat)) (l : List Hit) :
    (dedupAux seen l).Pairwise (fun a b => hitKey a ≠ hitKey b) := by
  induction l generalizing seen with
  | nil => simp [dedupAux]
  | cons h t ih =>
    simp only [dedupAux]
    split
    · exact ih seen
    · refine List.pairwise_cons.mpr ⟨?_, ih _⟩
      intro b hb hkey
      exact dedupAux_not_seen _ _ _ hb (by simp [hkey])

theorem dedupAux_covers (seen : List (Option String × Option Nat)) (l : List Hit)
    (h : Hit) (hmem : h ∈ l) :
    hitKey h ∈ seen ∨ ∃ h' ∈ dedupAux seen l, hitKey h' = hitKey h := by
  induction l generalizing seen with
  | nil => simp at hmem
  | cons c t ih =>
    simp only [dedupAux]
    rcases List.mem_cons.mp hmem with heq | hmem2
    · split
      · left; rw [heq]; assumption
      · right; exact ⟨c, List.mem_cons_self _ _, by rw [heq]⟩
    · split
      · exact ih seen hmem2
      · rcases ih (hitKey c :: seen) hmem2 with hseen | ⟨h', hh', hk⟩
        · rcases List.mem_cons.mp hseen with heq | hseen2
          · right; exact ⟨c, List.mem_cons_self _ _, heq.symm⟩
          · left; exact hseen2
        · right; exact ⟨h', List.mem_cons_of_mem _ hh', hk⟩

theorem dedupAux_first (seen : List (Option String × Option Nat)) (l : List Hit)
    (h' : Hit) (hmem : h' ∈ dedupAux seen l) :
    l.find? (fun x => decide (hitKey x = hitKey h')) = some h' := by
  induction l generalizing seen with
  | nil => simp [dedupAux] at hmem
  | cons c t ih =>
    simp only [dedupAux] at hmem
    split at hmem
    · rename_i hseen
      have hne : hitKey c ≠ hitKey h' := by
        intro hc
        exact dedupAux_not_seen _ _ _ hmem (hc ▸ hseen)
      rw [List.find?_cons_of_neg _ (by simpa using hne)]
      exact ih seen hmem
    · rcases List.mem_cons.mp hmem with rfl | hmem2
      · rw [List.find?_cons_of_pos _ (by simp)]
      · have hrest := dedupAux_not_seen _ _ _ hmem2
        have hne : hitKey c ≠ hitKey h' := by
          intro hc
          exact hrest (by simp [hc])
        rw [List.find?_cons_of_neg _ (by simpa using hne)]
        exact ih _ hmem2

/-! ## Claim C7: deduplication key -/

/-- C7 counterexample: two candidates with the same path, both missing
`chunk_index`, but different `(start_line, end_line)`.  The code collapses
them to one entry (the key is `(path, None)`), while the claimed key
`(path, start_line, end_line)` would keep both. -/
theorem c7_counterexample :
    dedup [hitNoIdxA, hitNoIdxB] = [hitNoIdxA] ∧
    specDedup [hitNoIdxA, hitNoIdxB] = [hitNoIdxA, hitNoIdxB] ∧
    hitNoIdxA ≠ hitNoIdxB := by
  refine ⟨by decide, by decide, by decide⟩

/-- C7 amended: deduplication always keys on `(path, chunk_index)` (missing
values key as `None`; there is no fall-back to line numbers).  The result is
a sublist of the input with pairwise-distinct keys, it covers every input
key, and each kept entry is the first-seen entry with its key (hence the
first-seen score). -/
theorem c7_dedup_characterization (cs : List Hit) :
    (dedup cs).Sublist cs ∧
    (dedup cs).Pairwise (fun a b => hitKey a ≠ hitKey b) ∧
    (∀ h ∈ cs, ∃ h' ∈ dedup cs, hitKey h' = hitKey h) ∧
    (∀ h' ∈ dedup cs, cs.find? (fun x => decide (hitKey x = hitKey h')) = some h') := by
  refine ⟨dedupAux_sublist [] cs, dedupAux_pairwise [] cs, ?_, ?_⟩
  · intro h hmem
    rcases dedupAux_covers [] cs h hmem with hseen | hex
    · simp at hseen
    · exact hex
  · intro h' hmem
    exact dedupAux_first [] cs h' hmem

/-- C7 witness: a list of three copies of one hit collapses to that hit. -/
theorem c7_witness :
    (dedup [plainHit, plainHit, plainHit]).Sublist [plainHit, plainHit, plainHit] ∧
    ∃ h' ∈ dedup [plainHit, plainHit, plainHit], hitKey h' = hitKey plainHit :=
  ⟨(c7_dedup_characterization [plainHit, plainHit, plainHit]).1,
    (c7_dedup_characterization [plainHit, plainHit, plainHit]).2.2.1 plainHit (by simp)⟩

/-! ## Claim C9: malformed metadata -/

/-- C9 counterexample: a candidate with metadata `None` defaults to a zero
boost, which is strictly higher priority than a test-directory path at the
same similarity score — the defaults are neutral, not lowest-priority. -/
theorem c9_counterexample :
    score_boost missingMdHit = 1/2 ∧ score_boost testsPathHit = 45/100 ∧
    score_boost testsPathHit < score_boost missingMdHit := by
  have h1 : score_boost missingMdHit = 1/2 := by
    simp only [score_boost, missingMdHit, emptyMd, Option.getD]
    simp +decide
  have h2 : score_boost testsPathHit = 45/100 := by
    simp only [score_boost, testsPathHit, emptyMd, Option.getD]
    simp only [show pyLower "tests/x.py" = "tests/x.py" from by decide]
    simp +decide
    norm_num
  refine ⟨h1, h2, ?_⟩
  rw [h1, h2]
  norm_num

/-- C9 amended: dedup and rerank are total on arbitrary hits; a metadata
dict of `None` degrades to the neutral defaults (score `0.0`, empty path —
no boost or penalty, flags false), so the composite score is exactly the
raw score, and the candidate is still processed: some entry with its key
survives deduplication. -/
theorem c9_defaults (h : Hit) (cs : List Hit) (hm : h.metadata = none) :
    score_boost h = h.score.getD 0 ∧
    (h ∈ cs → ∃ h' ∈ dedup cs, hitKey h' = hitKey h) := by
  constructor
  · simp only [score_boost, hm, emptyMd, Option.getD]
    simp +decide
  · intro hmem
    rcases dedupAux_covers [] cs h hmem with hseen | hex
    · simp at hseen
    · exact hex

/-- C9 witness: the defaults theorem applied to a concrete metadata-less
hit inside a one-element candidate list. -/
theorem c9_witness :
    score_boost missingMdHit = (missingMdHit.score.getD 0) ∧
    ∃ h' ∈ dedup [missingMdHit], hitKey h' = hitKey missingMdHit :=
  ⟨(c9_defaults missingMdHit [missingMdHit] rfl).1,
    (c9_defaults missingMdHit [missingMdHit] rfl).2 (by simp)⟩

/-! ## Claim C1: reranking order -/

/-- C1 counterexample: the spec's own example.  A README hit with score
0.10 gets composite 0.47 (0.10 + 0.25 readme + 0.12 doc), a tests-path hit
with score 0.95 gets composite 0.90 (0.95 − 0.05); the boost is additive,
not a dominant first key, so the test hit is ranked first. -/
theorem c1_counterexample :
    score_boost readmeHit = 47/100 ∧ score_boost testHit = 90/100 ∧
    rerank [readmeHit, testHit] = [testHit, readmeHit] := by
  have h1 : score_boost readmeHit = 47/100 := by
    simp only [score_boost, readmeHit, emptyMd, Option.getD]
    simp only [show pyLower "README.md" = "readme.md" from by decide]
    simp +decide
    norm_num
  have h2 : score_boost testHit = 90/100 := by
    simp only [score_boost, testHit, emptyMd, Option.getD]
    simp only [show pyLower "tests/test_app.py" = "tests/test_app.py" from by decide]
    simp +decide
    norm_num
  refine ⟨h1, h2, ?_⟩
  have hd : dedup [readmeHit, testHit] = [readmeHit, testHit] := by
    simp only [dedup, dedupAux]
    rw [if_neg (by decide), if_neg (by decide)]
  have hgt : ¬ boostGe readmeHit testHit := by
    rw [boostGe, h1, h2]; norm_num
  simp only [rerank, hd, List.insertionSort, List.orderedInsert]
  rw [if_neg hgt]
  simp [List.take]

/-- C1 amended: reranking sorts by the single composite key `score_boost`
(raw score plus additive boosts), descending and stably; the output is
nonincreasing in the composite score and drawn from the candidate pool.
There is no two-level `(boost, score)` ordering. -/
theorem c1_rerank_single_key (cs : List Hit) :
    List.Sorted boostGe (rerank cs) ∧ ∀ h ∈ rerank cs, h ∈ cs := by
  constructor
  · exact List.Pairwise.sublist (List.take_sublist _ _)
      (List.sorted_insertionSort boostGe (dedup cs))
  · intro h hmem
    have h1 : h ∈ (dedup cs).insertionSort boostGe := List.mem_of_mem_take hmem
    have h2 : h ∈ dedup cs := (List.perm_insertionSort boostGe (dedup cs)).mem_iff.mp h1
    exact (dedupAux_sublist [] cs).subset h2

/-- C1 witness: the amended theorem at a one-candidate list, with its
membership hypothesis discharged concretely. -/
theorem c1_witness :
    List.Sorted boostGe (rerank [plainHit]) ∧ plainHit ∈ [plainHit] :=
  ⟨(c1_rerank_single_key [plainHit]).1,
    (c1_rerank_single_key [plainHit]).2 plainHit
      (by simp [rerank, dedup, dedupAux, List.take])⟩

/-! ## Claim C8: the answer stage -/

theorem pathLines_total (l : List Hit) (hmd : ∀ h ∈ l, h.metadata ≠ none) :
    ∃ ls, pathLines l = .ok ls := by
  induction l with
  | nil => exact ⟨[], rfl⟩
  | cons h t ih =>
    have hh := hmd h (List.mem_cons_self _ _)
    cases hmdh : h.metadata with
    | none => exact absurd hmdh hh
    | some md =>
      obtain ⟨ls, hls⟩ := ih (fun x hx => hmd x (List.mem_cons_of_mem _ hx))
      refine ⟨("- " ++ md.path.getD "(unknown)") :: ls, ?_⟩
      simp [pathLines, hmdh, hls]

/-- C8 counterexample: with no LLM key and a nonempty hit list containing a
hit whose stored metadata is Python `None`, the listing branch evaluates
`h['metadata'].get(...)` on `None` and raises `AttributeError` — the answer
stage is not raise-free on every hit list. -/
theorem c8_counterexample :
    answer_fn none (fun _ => "") "q" [missingMdHit] = .error .attributeError := by rfl

/-- C8 amended: provided every hit's metadata dict is present (not `None`),
the answer stage never raises; zero hits yield the canned not-found
response; and with no generation credential the result is a path listing
computed without ever calling the generator. -/
theorem c8_degrade (key : Option String) (g g2 : String → String) (q : String)
    (hits : List Hit) (hmd : ∀ h ∈ hits, h.metadata ≠ none) :
    (answer_fn key g q hits).isOk = true ∧
    (hits = [] → answer_fn key g q hits = .ok notFoundMsg) ∧
    answer_fn none g q hits = answer_fn none g2 q hits := by
  have h8 : ∀ h ∈ hits.take 8, h.metadata ≠ none := fun h hx => hmd h (List.mem_of_mem_take hx)
  obtain ⟨ls, hls⟩ := pathLines_total (hits.take 8) h8
  refine ⟨?_, ?_, ?_⟩
  · by_cases he : hits = []
    · simp [answer_fn, he, Except.isOk, Except.toBool]
    · cases key with
      | none => simp [answer_fn, he, hls, Except.isOk, Except.toBool]
      | some k => simp [answer_fn, he, Except.isOk, Except.toBool]
  · intro he
    simp [answer_fn, he]
  · by_cases he : hits = []
    · simp [answer_fn, he]
    · simp [answer_fn, he, hls]

/-- C8 witness: the degradation theorem at a concrete one-hit list with
present metadata, and at the empty hit list. -/
theorem c8_witness :
    (answer_fn none (fun _ => "") "q" [plainHit]).isOk = true ∧
    answer_fn none (fun _ => "") "q" ([] : List Hit) = .ok notFoundMsg :=
  ⟨(c8_degrade none (fun _ => "") (fun _ => "") "q" [plainHit] (by simp [plainHit])).1,
    (c8_degrade none (fun _ => "") (fun _ => "") "q" [] (by simp)).2.1 rfl⟩

/-! ## Helper lemmas: strings and line windows -/

theorem string_append_data (a b : String) : (a ++ b).data = a.data ++ b.data := rfl

theorem pyStrip_eq_empty_iff (s : String) :
    pyStrip s = "" ↔ ∀ c ∈ s.data, c.isWhitespace = true := by
  have hmk : ∀ l : List Char, ((⟨l⟩ : String) = "") ↔ l = [] := by
    intro l
    constructor
    · intro h
      have := congrArg String.data h
      simpa using this
    · intro h
      rw [h]
  unfold pyStrip
  rw [hmk, List.reverse_eq_nil_iff, List.dropWhile_eq_nil_iff]
  constructor
  · intro h c hc
    by_cases hcw : c.isWhitespace = true
    · exact hcw
    · have hsplit : c ∈ s.data.takeWhile Char.isWhitespace ++ s.data.dropWhile Char.isWhitespace := by
        rw [List.takeWhile_append_dropWhile]
        exact hc
      rcases List.mem_append.mp hsplit with h3 | h3
      · exact List.mem_takeWhile_imp h3
      · exact h c (List.mem_reverse.mpr h3)
  · intro h c hc
    exact h c (List.dropWhile_subset _ (List.mem_reverse.mp hc))

theorem pyJoin_mem_data (sep : String) (w : List String) (x : String) (hx : x ∈ w)
    (c : Char) (hc : c ∈ x.data) : c ∈ (pyJoin sep w).data := by
  induction w with
  | nil => simp at hx
  | cons y t ih =>
    cases t with
    | nil =>
      have hxy : x = y := by simpa using hx
      subst hxy
      simpa [pyJoin] using hc
    | cons z t2 =>
      show c ∈ (y ++ sep ++ pyJoin sep (z :: t2)).data
      rw [string_append_data, string_append_data]
      rcases List.mem_cons.mp hx with heq | hx2
      · subst heq
        exact List.mem_append_left _ (List.mem_append_left _ hc)
      · exact List.mem_append_right _ (ih hx2)

theorem mem_slice (lines : List String) (start e i : Nat)
    (h1 : start ≤ i) (h2 : i < e) (h3 : i < lines.length) :
    lines.getD i "" ∈ (lines.drop start).take (e - start) := by
  induction lines generalizing start e i with
  | nil => simp at h3
  | cons c rest ih =>
    cases start with
    | zero =>
      cases e with
      | zero => omega
      | succ e2 =>
        simp only [List.drop_zero, Nat.sub_zero, List.take_succ_cons]
        cases i with
        | zero => simp [List.getD_cons_zero]
        | succ i2 =>
          have hrec := ih 0 e2 i2 (by omega) (by omega) (by simpa using h3)
          simp only [List.getD_cons_succ]
          exact List.mem_cons_of_mem _ (by simpa using hrec)
    | succ s2 =>
      cases i with
      | zero => omega
      | succ i2 =>
        have hrec := ih s2 (e - 1) i2 (by omega) (by omega) (by simpa using h3)
        simp only [List.getD_cons_succ, List.drop_succ_cons]
        have harith : e - 1 - s2 = e - (s2 + 1) := by omega
        rw [← harith]
        exact hrec

theorem blank_window_line (lines : List String) (start e i : Nat)
    (hblank : windowText lines start e = "")
    (h1 : start ≤ i) (h2 : i < e) (h3 : i < lines.length) :
    pyStrip (lines.getD i "") = "" := by
  have hmem := mem_slice lines start e i h1 h2 h3
  have hall := (pyStrip_eq_empty_iff _).mp hblank
  apply (pyStrip_eq_empty_iff _).mpr
  intro c hc
  exact hall c (pyJoin_mem_data "\n" _ _ hmem c hc)

theorem windowText_ne_lt (lines : List String) (start e : Nat)
    (h : windowText lines start e ≠ "") : start < e := by
  by_contra hc
  push_neg at hc
  apply h
  unfold windowText
  have hz : e - start = 0 := by omega
  rw [hz]
  rfl

/-! ## Helper lemmas: the chunking loop -/

theorem makeChunksLoop_bounds (path : String) (lines : List String) (L V : Nat) :
    ∀ fuel start idx, ∀ c ∈ makeChunksLoop path lines L V fuel start idx,
      1 ≤ c.start_line ∧ c.start_line ≤ c.end_line ∧
      c.end_line ≤ lines.length ∧ c.text ≠ "" := by
  intro fuel
  induction fuel with
  | zero =>
    intro start idx c hc
    simp [makeChunksLoop] at hc
  | succ f ih =>
    intro start idx c hc
    simp only [makeChunksLoop] at hc
    by_cases hs : start < lines.length
    · rw [if_pos hs] at hc
      by_cases ht : windowText lines start (min lines.length (start + L)) = ""
      · rw [if_pos ht] at hc
        exact ih _ _ c hc
      · rw [if_neg ht] at hc
        have hlt := windowText_ne_lt lines start _ ht
        by_cases hend : lines.length ≤ min lines.length (start + L)
        · rw [if_pos hend] at hc
          have hceq : c = ⟨windowText lines start (min lines.length (start + L)), path, idx,
              start + 1, min lines.length (start + L)⟩ := by simpa using hc
          subst hceq
          exact ⟨Nat.le_add_left 1 start, hlt, Nat.min_le_left _ _, ht⟩
        · rw [if_neg hend] at hc
          rcases List.mem_cons.mp hc with heq | hc2
          · subst heq
            exact ⟨Nat.le_add_left 1 start, hlt, Nat.min_le_left _ _, ht⟩
          · exact ih _ _ c hc2
    · rw [if_neg hs] at hc
      simp at hc

theorem makeChunksLoop_covers (path : String) (lines : List String) (L V : Nat)
    (hLV : max 1 (L - V) ≤ L) :
    ∀ fuel start idx i, start ≤ i → i < lines.length → lines.length ≤ start + fuel →
      pyStrip (lines.getD i "") ≠ "" →
      ∃ c ∈ makeChunksLoop path lines L V fuel start idx,
        c.start_line ≤ i + 1 ∧ i + 1 ≤ c.end_line := by
  intro fuel
  induction fuel with
  | zero =>
    intro start idx i h1 h2 h3 h4
    omega
  | succ f ih =>
    intro start idx i h1 h2 h3 h4
    have hs : start < lines.length := by omega
    have hstep1 : 1 ≤ max 1 (L - V) := le_max_left _ _
    simp only [makeChunksLoop, if_pos hs]
    by_cases ht : windowText lines start (min lines.length (start + L)) = ""
    · rw [if_pos ht]
      have hout : min lines.length (start + L) ≤ i := by
        by_contra hin
        push_neg at hin
        exact h4 (blank_window_line lines start _ i ht h1 hin h2)
      have harg1 : start + max 1 (L - V) ≤ i := by
        rcases min_choice lines.length (start + L) with hm | hm <;> rw [hm] at hout <;> omega
      exact ih (start + max 1 (L - V)) idx i harg1 h2 (by omega) h4
    · rw [if_neg ht]
      by_cases hend : lines.length ≤ min lines.length (start + L)
      · rw [if_pos hend]
        exact ⟨_, List.mem_singleton_self _, Nat.succ_le_succ h1, le_trans h2 hend⟩
      · rw [if_neg hend]
        by_cases hin : i < min lines.length (start + L)
        · exact ⟨_, List.mem_cons_self _ _, Nat.succ_le_succ h1, hin⟩
        · push_neg at hin
          have harg1 : start + max 1 (L - V) ≤ i := by
            rcases min_choice lines.length (start + L) with hm | hm <;> rw [hm] at hin <;> omega
          obtain ⟨c, hc, hcov⟩ := ih (start + max 1 (L - V)) (idx + 1) i harg1 h2 (by omega) h4
          exact ⟨c, List.mem_cons_of_mem _ hc, hcov⟩

/-! ## Claim C6: the chunker -/

set_option maxRecDepth 100000 in
/-- C6 counterexample: `blankTailText` has 111 lines; its last 60-line
window (lines 101–111) strips to empty and is dropped, every emitted chunk
ends at or before line 110, and chunks are emitted — so line 111 is covered
by no fragment, refuting full coverage. -/
theorem c6_counterexample :
    (pySplitlines blankTailText).length = 111 ∧
    make_chunks "p" blankTailText 60 10 ≠ [] ∧
    ((make_chunks "p" blankTailText 60 10).all fun c => c.end_line ≤ 110) = true := by
  refine ⟨by decide, by decide, by decide⟩

/-- C6 amended: with the source defaults (60-line windows, 10-line
overlap), empty input yields zero fragments; every emitted fragment has a
1-based, ordered line range that never exceeds the number of lines and a
nonempty stripped text; and every line that is not whitespace-only is
covered by some emitted fragment.  A whitespace-only line can be dropped
together with its window, so full coverage holds only up to blank lines. -/
theorem c6_chunk_properties (path text : String) :
    (text = "" → make_chunks path text 60 10 = []) ∧
    (∀ c ∈ make_chunks path text 60 10,
      1 ≤ c.start_line ∧ c.start_line ≤ c.end_line ∧
      c.end_line ≤ (pySplitlines text).length ∧ c.text ≠ "") ∧
    (∀ i, i < (pySplitlines text).length →
      pyStrip ((pySplitlines text).getD i "") ≠ "" →
      ∃ c ∈ make_chunks path text 60 10, c.start_line ≤ i + 1 ∧ i + 1 ≤ c.end_line) := by
  refine ⟨?_, ?_, ?_⟩
  · intro he
    subst he
    rfl
  · intro c hc
    exact makeChunksLoop_bounds path (pySplitlines text) 60 10 _ 0 0 c hc
  · intro i hi hnb
    exact makeChunksLoop_covers path (pySplitlines text) 60 10 (by decide) _ 0 0 i
      (by omega) hi (by omega) hnb

/-- C6 witness: the chunk-properties theorem at the empty text and at the
one-line text `"a"`, whose single nonblank line is covered. -/
theorem c6_witness :
    make_chunks "p" "" 60 10 = [] ∧
    ∃ c ∈ make_chunks "p" "a" 60 10, c.start_line ≤ 1 ∧ 1 ≤ c.end_line :=
  ⟨(c6_chunk_properties "p" "").1 rfl,
    (c6_chunk_properties "p" "a").2.2 0 (by decide) (by decide)⟩

/-! ## Helper lemmas: the snapshot manager -/

theorem lookupBranch_mem (l : List (String × Nat)) (b : String) (c : Nat)
    (h : lookupBranch l b = some c) : (b, c) ∈ l := by
  induction l with
  | nil => simp [lookupBranch] at h
  | cons p rest ih =>
    simp only [lookupBranch] at h
    split at h
    · rename_i heq
      have hp : p = (b, c) := by
        cases p
        simp only [Option.some.injEq] at h
        simp_all
      rw [hp]
      exact List.mem_cons_self _ _
    · exact List.mem_cons_of_mem _ (ih h)

theorem attemptBranch_fst (r : Remote) (s : Snapshot) (b : String) :
    (attemptBranch r s b).1 = (lookupBranch r.branches b).isSome := by
  unfold attemptBranch
  cases lookupBranch s.heads b <;> cases lookupBranch r.branches b <;> simp

theorem attemptBranch_inv (r : Remote) (s : Snapshot) (b : String) :
    (attemptBranch r s b).2.originHead = s.originHead ∧
    (attemptBranch r s b).2.indexLock = s.indexLock ∧
    (attemptBranch r s b).2.lockLive = s.lockLive := by
  unfold attemptBranch
  cases lookupBranch s.heads b <;> cases lookupBranch r.branches b <;> simp

theorem attemptBranch_fail (r : Remote) (s : Snapshot) (b : String)
    (hf : (attemptBranch r s b).1 = false) :
    (attemptBranch r s b).2.heads = s.heads ∧
    ((attemptBranch r s b).2.current = s.current ∨
      ∃ p ∈ s.heads, (attemptBranch r s b).2.current = some p) := by
  unfold attemptBranch at hf ⊢
  cases hh : lookupBranch s.heads b with
  | none =>
    cases hr : lookupBranch r.branches b with
    | none => simp [hh, hr]
    | some rc => simp [hh, hr] at hf
  | some c =>
    cases hr : lookupBranch r.branches b with
    | none =>
      refine ⟨by simp [hh, hr], Or.inr ⟨(b, c), lookupBranch_mem s.heads b c hh, ?_⟩⟩
      simp [hh, hr]
    | some rc => simp [hh, hr] at hf

theorem fallbackLoop_fst (r : Remote) (l : List String) (s : Snapshot) :
    (fallbackLoop r l s).1 =
      match l.find? (fun b => (lookupBranch r.branches b).isSome) with
      | some b => .ok b
      | none => .error .gitCommandError := by
  induction l generalizing s with
  | nil => simp [fallbackLoop]
  | cons fb rest ih =>
    have hfst : (lookupBranch r.branches fb).isSome = (attemptBranch r s fb).1 :=
      (attemptBranch_fst r s fb).symm
    rcases hA : attemptBranch r s fb with ⟨ok, s1⟩
    rw [hA] at hfst
    simp only [fallbackLoop, hA]
    cases ok with
    | true =>
      rw [List.find?_cons_of_pos _ (by simpa using hfst)]
    | false =>
      rw [List.find?_cons_of_neg _ (by simpa using hfst)]
      exact ih s1

theorem fallbackLoop_inv (r : Remote) (l : List String) (s : Snapshot) :
    (fallbackLoop r l s).2.originHead = s.originHead ∧
    (fallbackLoop r l s).2.indexLock = s.indexLock ∧
    (fallbackLoop r l s).2.lockLive = s.lockLive := by
  induction l generalizing s with
  | nil => simp [fallbackLoop]
  | cons fb rest ih =>
    have hinv := attemptBranch_inv r s fb
    rcases hA : attemptBranch r s fb with ⟨ok, s1⟩
    rw [hA] at hinv
    simp only [fallbackLoop, hA]
    cases ok with
    | true => exact hinv
    | false =>
      have := ih s1
      exact ⟨by rw [this.1, hinv.1], by rw [this.2.1, hinv.2.1], by rw [this.2.2, hinv.2.2]⟩

theorem fallbackLoop_fail (r : Remote) (l : List String) (s : Snapshot)
    (hf : (fallbackLoop r l s).1.isOk = false) :
    (fallbackLoop r l s).2.heads = s.heads ∧
    ((fallbackLoop r l s).2.current = s.current ∨
      ∃ p ∈ s.heads, (fallbackLoop r l s).2.current = some p) := by
  induction l generalizing s with
  | nil => simp [fallbackLoop]
  | cons fb rest ih =>
    rcases hA : attemptBranch r s fb with ⟨ok, s1⟩
    simp only [fallbackLoop, hA] at hf ⊢
    cases ok with
    | true =>
      dsimp only at hf
      simp [Except.isOk, Except.toBool] at hf
    | false =>
      dsimp only at hf ⊢
      have hfail := attemptBranch_fail r s fb (by rw [hA])
      rw [hA] at hfail
      dsimp only at hfail
      have hrec := ih s1 hf
      refine ⟨by rw [hrec.1, hfail.1], ?_⟩
      rcases hrec.2 with hsame | ⟨p, hp, hcur⟩
      · rcases hfail.2 with hsame2 | ⟨p, hp, hcur⟩
        · exact Or.inl (by rw [hsame, hsame2])
        · exact Or.inr ⟨p, hp, by rw [hsame, hcur]⟩
      · exact Or.inr ⟨p, by rw [← hfail.1]; exact hp, hcur⟩

theorem branchPhase_fst (r : Remote) (s : Snapshot) (target : String) :
    (branchPhase r s target).1 =
      match (target :: List.filter (fun fb => fb ≠ target) ["main", "master"]).find?
          (fun b => (lookupBranch r.branches b).isSome) with
      | some b => .ok b
      | none => .error .gitCommandError := by
  have hfst : (lookupBranch r.branches target).isSome = (attemptBranch r s target).1 :=
    (attemptBranch_fst r s target).symm
  rcases hA : attemptBranch r s target with ⟨ok, s1⟩
  rw [hA] at hfst
  simp only [branchPhase, hA]
  cases ok with
  | true =>
    rw [List.find?_cons_of_pos _ (by simpa using hfst)]
  | false =>
    rw [List.find?_cons_of_neg _ (by simpa using hfst)]
    exact fallbackLoop_fst r _ s1

theorem branchPhase_inv (r : Remote) (s : Snapshot) (target : String) :
    (branchPhase r s target).2.originHead = s.originHead ∧
    (branchPhase r s target).2.indexLock = s.indexLock ∧
    (branchPhase r s target).2.lockLive = s.lockLive := by
  have hinv := attemptBranch_inv r s target
  rcases hA : attemptBranch r s target with ⟨ok, s1⟩
  rw [hA] at hinv
  simp only [branchPhase, hA]
  cases ok with
  | true => exact hinv
  | false =>
    have := fallbackLoop_inv r (List.filter (fun fb => fb ≠ target) ["main", "master"]) s1
    exact ⟨by rw [this.1, hinv.1], by rw [this.2.1, hinv.2.1], by rw [this.2.2, hinv.2.2]⟩

theorem branchPhase_fail (r : Remote) (s : Snapshot) (target : String)
    (hf : (branchPhase r s target).1.isOk = false) :
    (branchPhase r s target).2.heads = s.heads ∧
    ((branchPhase r s target).2.current = s.current ∨
      ∃ p ∈ s.heads, (branchPhase r s target).2.current = some p) := by
  rcases hA : attemptBranch r s target with ⟨ok, s1⟩
  simp only [branchPhase, hA] at hf ⊢
  cases ok with
  | true =>
    dsimp only at hf
    simp [Except.isOk, Except.toBool] at hf
  | false =>
    dsimp only at hf ⊢
    have hfail := attemptBranch_fail r s target (by rw [hA])
    rw [hA] at hfail
    dsimp only at hfail
    have hrec := fallbackLoop_fail r _ s1 hf
    refine ⟨by rw [hrec.1, hfail.1], ?_⟩
    rcases hrec.2 with hsame | ⟨p, hp, hcur⟩
    · rcases hfail.2 with hsame2 | ⟨p, hp, hcur⟩
      · exact Or.inl (by rw [hsame, hsame2])
      · exact Or.inr ⟨p, hp, by rw [hsame, hcur]⟩
    · exact Or.inr ⟨p, by rw [← hfail.1]; exact hp, hcur⟩

theorem branchPhase_err (r : Remote) (s : Snapshot) (target : String) (e : LoaderErr)
    (he : (branchPhase r s target).1 = .error e) : e = .gitCommandError := by
  rw [branchPhase_fst] at he
  rcases hfind : (target :: List.filter (fun fb => fb ≠ target) ["main", "master"]).find?
      (fun b => (lookupBranch r.branches b).isSome) with _ | b <;> rw [hfind] at he
  · cases he
    rfl
  · cases he

theorem updatePhase_lock (r : Remote) (b : Option String) (s : Snapshot) :
    (updatePhase r b s).2.indexLock = false := by
  simp only [updatePhase]
  by_cases hr : r.reachable
  · rw [if_pos hr]
    rcases hBP : branchPhase r (remove_stale_index_lock (remove_stale_index_lock s))
        (targetBranch r (remove_stale_index_lock s) b) with ⟨res, s1⟩
    have hinv := branchPhase_inv r (remove_stale_index_lock (remove_stale_index_lock s))
      (targetBranch r (remove_stale_index_lock s) b)
    rw [hBP] at hinv
    dsimp only at hinv
    cases res with
    | ok v =>
      dsimp only
      simpa [remove_stale_index_lock] using hinv.2.1
    | error e =>
      dsimp only
      simpa [remove_stale_index_lock] using hinv.2.1
  · rw [if_neg hr]
    rfl

theorem updatePhase_err (r : Remote) (b : Option String) (s : Snapshot) (e : LoaderErr)
    (he : (updatePhase r b s).1 = .error e) : e = .gitCommandError := by
  simp only [updatePhase] at he
  by_cases hr : r.reachable
  · rw [if_pos hr] at he
    rcases hBP : branchPhase r (remove_stale_index_lock (remove_stale_index_lock s))
        (targetBranch r (remove_stale_index_lock s) b) with ⟨res, s1⟩
    rw [hBP] at he
    cases res with
    | ok v => dsimp only at he; cases he
    | error e2 =>
      dsimp only at he
      cases he
      exact branchPhase_err r _ _ e (by rw [hBP])
  · rw [if_neg hr] at he
    cases he
    rfl

theorem updatePhase_fail (r : Remote) (b : Option String) (s : Snapshot)
    (hf : (updatePhase r b s).1.isOk = false) :
    (updatePhase r b s).2.heads = s.heads ∧
    (updatePhase r b s).2.originHead = s.originHead ∧
    (updatePhase r b s).2.lockLive = s.lockLive ∧
    (updatePhase r b s).2.indexLock = false ∧
    ((updatePhase r b s).2.current = s.current ∨
      ∃ p ∈ s.heads, (updatePhase r b s).2.current = some p) := by
  have hlock := updatePhase_lock r b s
  simp only [updatePhase] at hf hlock ⊢
  by_cases hr : r.reachable
  · rw [if_pos hr] at hf hlock ⊢
    rcases hBP : branchPhase r (remove_stale_index_lock (remove_stale_index_lock s))
        (targetBranch r (remove_stale_index_lock s) b) with ⟨res, s1⟩
    rw [hBP] at hf hlock
    have hinv := branchPhase_inv r (remove_stale_index_lock (remove_stale_index_lock s))
      (targetBranch r (remove_stale_index_lock s) b)
    rw [hBP] at hinv
    dsimp only at hinv
    cases res with
    | ok v =>
      dsimp only at hf
      simp [Except.isOk, Except.toBool] at hf
    | error e =>
      dsimp only at hf hlock ⊢
      have hfail := branchPhase_fail r (remove_stale_index_lock (remove_stale_index_lock s))
        (targetBranch r (remove_stale_index_lock s) b) (by rw [hBP]; rfl)
      rw [hBP] at hfail
      dsimp only at hfail
      simp only [remove_stale_index_lock] at hfail hinv
      exact ⟨hfail.1, hinv.1, hinv.2.2, hlock, hfail.2⟩
  · rw [if_neg hr] at hf hlock ⊢
    exact ⟨rfl, rfl, rfl, rfl, Or.inl rfl⟩

theorem cloneOrUpdateCore_err (r : Remote) (b : Option String) (os : Option Snapshot)
    (e : LoaderErr) (he : (cloneOrUpdateCore r b os).1 = .error e) : e = .gitCommandError := by
  cases os with
  | none =>
    simp only [cloneOrUpdateCore] at he
    by_cases hr : r.reachable
    · rw [if_pos hr] at he
      exact updatePhase_err r b (cloneSnapshot r) e he
    · rw [if_neg hr] at he
      cases he
      rfl
  | some s =>
    simp only [cloneOrUpdateCore] at he
    exact updatePhase_err r b s e he

/-! ## Claim C2: branch resolution -/

/-- C2 counterexample: for a reachable remote exposing only `develop` and a
snapshot whose `origin/HEAD` symbolic ref is absent, an acquisition with no
explicit branch raises the underlying git error, whereas the claimed
resolution order would select `develop` (the lexicographically first —
indeed the only — remote branch); there is also no typed `NoBranchFound`. -/
theorem c2_counterexample :
    (clone_or_update remoteDevelopOnly none ⟨some snapDevelop, false⟩).1 =
      .error .gitCommandError ∧
    specResolveBranch remoteDevelopOnly none = .ok "develop" :=
  ⟨by decide, by decide⟩

/-- C2 amended: the branch actually materialized is the first of
`[target, "main", "master"]` (minus duplicates of `target`) that exists on
the remote, where `target` is the explicit nonempty requested branch or
else `_default_branch` (`origin/HEAD`, else `main`/`master` if present on
the remote, else the literal `"main"`); if none of the candidates exists
the underlying `GitCommandError` is re-raised — there is no
lexicographic-first fallback and no `NoBranchFound`.  With a remote
exposing only `master` and no explicit branch, `master` is selected (tip
commit 7). -/
theorem c2_branch_resolution :
    (∀ (r : Remote) (s : Snapshot) (target : String),
      (branchPhase r s target).1 =
        match (target :: List.filter (fun fb => fb ≠ target) ["main", "master"]).find?
            (fun b => (lookupBranch r.branches b).isSome) with
        | some b => .ok b
        | none => .error .gitCommandError) ∧
    (clone_or_update remoteMasterOnly none ⟨none, false⟩).1 = .ok 7 :=
  ⟨fun r s target => branchPhase_fst r s target, by decide⟩

/-! ## Claim C3: failure leaves the snapshot unchanged -/

/-- C3 counterexample: updating `snapWithFeature` with requested branch
`feature` — deleted on the remote, which has neither `main` nor `master` —
fails, yet the failed update leaves the working tree switched from
`develop` to the stale local `feature` branch: the checkout succeeded
before the hard reset failed. -/
theorem c3_counterexample :
    (clone_or_update remoteFeatureGone (some "feature") ⟨some snapWithFeature, false⟩).1 =
      .error .gitCommandError ∧
    (clone_or_update remoteFeatureGone (some "feature") ⟨some snapWithFeature, false⟩).2.snapshot =
      some ⟨[("feature", 5), ("develop", 3)], some ("feature", 5), some "develop", false, false⟩ ∧
    snapWithFeature.current ≠ some ("feature", 5) :=
  ⟨by decide, by decide, by decide⟩

/-- C3 amended: a failed update never deletes the snapshot directory and
never touches local branches, `origin/HEAD` or the vector index (so
previously ingested namespaces stay queryable), and it clears
`.git/index.lock`; a failed initial clone (`git clone` removes the
directory it created) leaves the `repo_id` with no snapshot, so a
subsequent acquisition for that `repo_id` behaves exactly as if no
snapshot exists; but the working tree is not necessarily unchanged — on
failure it is either where it was or checked out at some pre-existing
local branch, because a checkout can succeed before the reset fails. -/
theorem c3_failure_preservation (r r2 : Remote) (b b2 : Option String) (s : Snapshot) :
    ((cloneOrUpdateCore r b (some s)).1.isOk = false →
      ∃ s', (cloneOrUpdateCore r b (some s)).2 = some s' ∧
        s'.heads = s.heads ∧ s'.originHead = s.originHead ∧ s'.lockLive = s.lockLive ∧
        s'.indexLock = false ∧
        (s'.current = s.current ∨ ∃ p ∈ s.heads, s'.current = some p)) ∧
    (r.reachable = false →
      (cloneOrUpdateCore r b none).1.isOk = false ∧
      (cloneOrUpdateCore r b none).2 = none ∧
      cloneOrUpdateCore r2 b2 (cloneOrUpdateCore r b none).2 =
        cloneOrUpdateCore r2 b2 none) := by
  constructor
  · intro hfail
    have hf2 : (updatePhase r b s).1.isOk = false := hfail
    have h := updatePhase_fail r b s hf2
    exact ⟨(updatePhase r b s).2, rfl, h.1, h.2.1, h.2.2.1, h.2.2.2.1, h.2.2.2.2⟩
  · intro hr
    have hfs : (cloneOrUpdateCore r b none).2 = none := by
      simp [cloneOrUpdateCore, hr]
    refine ⟨?_, hfs, by rw [hfs]⟩
    simp [cloneOrUpdateCore, hr, Except.isOk, Except.toBool]

/-- C3 witness: the preservation theorem at an unreachable remote: a failed
update leaves the snapshot untouched apart from the lock, and a failed
initial clone leaves no snapshot registered. -/
theorem c3_witness :
    (∃ s', (cloneOrUpdateCore remoteDown none (some snapMain1)).2 = some s' ∧
      s'.heads = snapMain1.heads ∧ s'.originHead = snapMain1.originHead ∧
      s'.lockLive = snapMain1.lockLive ∧ s'.indexLock = false ∧
      (s'.current = snapMain1.current ∨ ∃ p ∈ snapMain1.heads, s'.current = some p)) ∧
    (cloneOrUpdateCore remoteDown none none).2 = none :=
  ⟨(c3_failure_preservation remoteDown remoteDown none none snapMain1).1 (by rfl),
    ((c3_failure_preservation remoteDown remoteDown none none snapMain1).2 rfl).2.1⟩

/-! ## Claim C4: locking -/

/-- C4 counterexample: with the `repo_id`-scoped lock file present (a
concurrent acquisition in flight), `clone_or_update` neither fails with
`SnapshotBusy` nor waits: it runs the full mutating update (advancing the
commit from 1 to 2) and leaves the lock untouched. -/
theorem c4_counterexample :
    (⟨some snapMain1, true⟩ : RepoFS).appLock = true ∧
    (clone_or_update remoteMain2 none ⟨some snapMain1, true⟩).1 = .ok 2 ∧
    (clone_or_update remoteMain2 none ⟨some snapMain1, true⟩).1 ≠ .error .snapshotBusy ∧
    (clone_or_update remoteMain2 none ⟨some snapMain1, true⟩).2.appLock = true :=
  ⟨rfl, by decide, by decide, by decide⟩

/-- C4 amended: `clone_or_update` performs no `repo_id`-scoped locking at
all: its result is independent of any lock file state, it never reads or
writes the lock, and no `SnapshotBusy` error exists in the code — the only
error it raises is the git error. -/
theorem c4_no_locking (r : Remote) (b : Option String) (fs : RepoFS) (l : Bool) :
    (clone_or_update r b ⟨fs.snapshot, l⟩).1 = (clone_or_update r b fs).1 ∧
    (clone_or_update r b fs).2.appLock = fs.appLock ∧
    ∀ e, (clone_or_update r b fs).1 = .error e → e = .gitCommandError := by
  refine ⟨rfl, rfl, ?_⟩
  intro e he
  exact cloneOrUpdateCore_err r b fs.snapshot e he

/-- C4 witness: the no-locking theorem applied at an unreachable remote;
the only error produced is the git error, never `SnapshotBusy`. -/
theorem c4_witness :
    (clone_or_update remoteDown none ⟨none, false⟩).2.appLock = false ∧
    LoaderErr.gitCommandError = LoaderErr.gitCommandError :=
  ⟨(c4_no_locking remoteDown none ⟨none, false⟩ true).2.1,
    (c4_no_locking remoteDown none ⟨none, false⟩ true).2.2 .gitCommandError (by rfl)⟩

/-! ## Claim C10: the index.lock handling -/

/-- C10 counterexample: an existing `.git/index.lock` held by a live
process is not a hard stop: the update removes it unconditionally,
proceeds through fetch and reset (commit 4 → 5), and succeeds. -/
theorem c10_counterexample :
    snapLockedLive.indexLock = true ∧ snapLockedLive.lockLive = true ∧
    (clone_or_update remoteMain5 none ⟨some snapLockedLive, false⟩).1 = .ok 5 ∧
    (clone_or_update remoteMain5 none ⟨some snapLockedLive, false⟩).2.snapshot =
      some ⟨[("main", 5)], some ("main", 5), some "main", false, true⟩ :=
  ⟨rfl, rfl, by decide, by decide⟩

/-- C10 amended: `.git/index.lock` is removed unconditionally before the
mutating git operations (and again on fetch failure), with no check of
whether its holder is alive: the outcome of an update is independent of the
pre-existing lock state, and the final snapshot never carries the lock. -/
theorem c10_lock_always_cleared (r : Remote) (b : Option String) (s : Snapshot) (l : Bool) :
    (cloneOrUpdateCore r b (some {s with indexLock := l})).1 =
      (cloneOrUpdateCore r b (some s)).1 ∧
    ∀ s', (cloneOrUpdateCore r b (some s)).2 = some s' → s'.indexLock = false := by
  constructor
  · rfl
  · intro s' hs'
    have heq : s' = (updatePhase r b s).2 := by
      simp only [cloneOrUpdateCore] at hs'
      exact (Option.some.injEq _ _ ▸ hs').symm
    rw [heq]
    exact updatePhase_lock r b s

/-- C10 witness: the lock-clearing theorem at the live-held-lock snapshot:
the same result as without the lock, and the final state carries no lock. -/
theorem c10_witness :
    (cloneOrUpdateCore remoteMain5 none (some snapLockedLive)).1 =
      (cloneOrUpdateCore remoteMain5 none
        (some ⟨[("main", 4)], some ("main", 4), some "main", false, true⟩)).1 ∧
    (⟨[("main", 5)], some ("main", 5), some "main", false, true⟩ : Snapshot).indexLock = false :=
  ⟨(c10_lock_always_cleared remoteMain5 none
      ⟨[("main", 4)], some ("main", 4), some "main", false, true⟩ true).1,
    (c10_lock_always_cleared remoteMain5 none
      ⟨[("main", 4)], some ("main", 4), some "main", false, true⟩ true).2
      ⟨[("main", 5)], some ("main", 5), some "main", false, true⟩ (by decide)⟩

/-! ## Claim C5: URL normalization -/

/-- C5 counterexample: a URL carrying the path suffix `/issues` beyond
`owner/repo` is not rejected — it is silently normalized to the repository
root, and the ingestion entry point accepts it. -/
theorem c5_counterexample :
    normalize_github_repo_url "https://github.com/a/b/issues" =
      .ok "https://github.com/a/b.git" ∧
    ingestValidateUrl "https://github.com/a/b/issues" =
      .ok "https://github.com/a/b.git" :=
  ⟨by decide, by decide⟩

/-- C5 amended: `normalize_github_repo_url` rejects a path suffix only when
its first extra segment is `tree` or `blob`; any other suffix (e.g.
`/issues`) is silently stripped and the canonical
`https://github.com/OWNER/REPO.git` form is returned (with `.git` removed
from the repo segment).  Every `ValueError` it raises is surfaced by the
ingestion entry point as HTTP 400. -/
theorem c5_url_normalization (owner repo : String) (rest : List String) :
    (normalizeParts (owner :: repo :: rest) =
      if rest.head? = some "tree" ∨ rest.head? = some "blob" then
        .error (.valueError "You pasted a folder/file URL. Use the repo root URL like: https://github.com/OWNER/REPO")
      else .ok ("https://github.com/" ++ owner ++ "/" ++
        String.mk (removeAll ".git".data repo.data) ++ ".git")) ∧
    ∀ u e, normalize_github_repo_url u = .error e → ingestValidateUrl u = .error 400 := by
  constructor
  · cases rest with
    | nil => simp [normalizeParts]
    | cons third t =>
      simp only [normalizeParts, List.head?, Option.some.injEq]
  · intro u e he
    unfold ingestValidateUrl
    rw [he]

/-- C5 witness: the normalization theorem at a `tree` URL (rejected) and at
a non-GitHub string (whose `ValueError` becomes HTTP 400). -/
theorem c5_witness :
    normalizeParts ["a", "b", "tree"] =
      .error (.valueError "You pasted a folder/file URL. Use the repo root URL like: https://github.com/OWNER/REPO") ∧
    ingestValidateUrl "nota-github-url" = .error 400 := by
  constructor
  · have h := (c5_url_normalization "a" "b" ["tree"]).1
    simpa using h
  · exact (c5_url_normalization "a" "b" []).2 "nota-github-url"
      (.valueError "Only github.com URLs are supported in this MVP") (by decide)

end OnboardingAgent
